import Mathlib

/-!
Verification of the HGW bonus-simulator core (`src/main.py`).

The embedding below translates the compensation-rule engine of the
repository into Lean: the membership catalog `MEMBERSHIP`, the downline
generator `get_downline_counts`, the two bonus calculators
`calculate_team_bonus` and `calculate_elite_bonus`, and the network
construction loop of `show_network_visualization` (here `build_network`).
Python floats are modelled as exact rationals (`ℚ`), Python ints as `ℤ`
(loop counters as `ℕ`), and Python exceptions as `Except PyError`.
-/

deriving instance DecidableEq for Except

namespace HGW

/-- Exceptions the Python core can raise: `ZeroDivisionError` from `%` with a
zero divisor, and `KeyError` from a failed dict lookup. -/
inductive PyError where
  | zeroDivisionError : PyError
  | keyError : String → PyError
deriving DecidableEq

/-- One entry of the MEMBERSHIP dict, with keys team_pct, elite_depth and color. -/
structure Tier where
  team_pct : ℚ
  elite_depth : ℕ
  color : String
deriving DecidableEq

/-- The `MEMBERSHIP` dict of `src/main.py` (insertion-ordered association list). -/
def MEMBERSHIP : List (String × Tier) :=
  [("Pre-Junior", ⟨0.05, 0, "#90CAF9"⟩),
   ("Junior",     ⟨0.07, 0, "#81C784"⟩),
   ("Senior",     ⟨0.08, 3, "#FFB74D"⟩),
   ("Master",     ⟨0.10, 6, "#F06292"⟩)]

/-- Python dict subscription `MEMBERSHIP[key]`: raises `KeyError(key)` when absent. -/
def dictGet (d : List (String × Tier)) (key : String) : Except PyError Tier :=
  match d.find? (fun p => p.1 == key) with
  | some p => .ok p.2
  | none => .error (.keyError key)

/-- Embeds `get_downline_counts(gen_count, bv_per_person, first_gen_default, other_gen_default)`:
builds `[(count, bv) for i in range(gen_count)]` with `count = first_gen_default`
for `i == 0` and `other_gen_default` otherwise.  A negative `gen_count` gives an
empty `range`, hence the empty list. -/
def get_downline_counts (gen_count : ℤ) (bv_per_person : ℚ)
    (first_gen_default : ℤ) (other_gen_default : ℤ) : List (ℤ × ℚ) :=
  (List.range gen_count.toNat).map
    (fun i => (if i = 0 then first_gen_default else other_gen_default, bv_per_person))

/-- The dict returned by `calculate_team_bonus`. -/
structure TeamBonusResult where
  bv_base : ℚ
  bonus_pct : ℚ
  bonus_amount : ℚ
deriving DecidableEq

/-- Embeds `calculate_team_bonus(bv_private, bv_public, membership_level)`:
`bv_base = min(...)`, then the dict lookup (which raises `KeyError` for an
unknown level), then `bonus_amount = bv_base * rate`. -/
def calculate_team_bonus (bv_private bv_public : ℚ) (membership_level : String) :
    Except PyError TeamBonusResult :=
  let bv_base := min bv_private bv_public
  match dictGet MEMBERSHIP membership_level with
  | .error e => .error e
  | .ok t => .ok ⟨bv_base, t.team_pct, bv_base * t.team_pct⟩

/-- The dict returned by `calculate_elite_bonus`. -/
structure EliteBonusResult where
  generational_bonuses : List ℚ
  total_elite_bonus : ℚ
deriving DecidableEq

/-- Embeds `calculate_elite_bonus(downline_data, membership_level)`: looks up
`elite_depth`, takes the slice `downline_data[:max_depth]`, maps
`count * bv * 0.04` over it and sums. -/
def calculate_elite_bonus (downline_data : List (ℤ × ℚ)) (membership_level : String) :
    Except PyError EliteBonusResult :=
  match dictGet MEMBERSHIP membership_level with
  | .error e => .error e
  | .ok t =>
    let rate : ℚ := 0.04
    let bonuses := (downline_data.take t.elite_depth).map (fun p => (p.1 : ℚ) * p.2 * rate)
    .ok ⟨bonuses, bonuses.sum⟩

/-- Python `a % b`: floor-based modulo (`Int.fmod`), raising `ZeroDivisionError`
when `b = 0`. -/
def pymod (a b : ℤ) : Except PyError ℤ :=
  if b = 0 then .error .zeroDivisionError else .ok (Int.fmod a b)

/-- The f-string label template `f"G{g}-{i}"` used by the network loop
(with the index argument already incremented by the caller). -/
def node_label (g : ℕ) (idx : ℤ) : String :=
  "G" ++ Nat.repr g ++ "-" ++ Int.repr idx

/-- A `networkx.DiGraph` as observed by the loop: insertion-ordered node list
and chronological edge list, both duplicate-free by construction of
`add_node` / `add_edge`. -/
structure Network where
  nodes : List String
  edges : List (String × String)
deriving DecidableEq

/-- Embeds `graph.add_node(v)`: a no-op when `v` is already present. -/
def addNode (g : Network) (v : String) : Network :=
  if v ∈ g.nodes then g else ⟨g.nodes ++ [v], g.edges⟩

/-- Embeds `graph.add_edge(u, v)`: inserts missing endpoints (`u` first), then the
edge unless already present. -/
def addEdge (g : Network) (u v : String) : Network :=
  let g1 := addNode g u
  let g2 := addNode g1 v
  if (u, v) ∈ g2.edges then g2 else ⟨g2.nodes, g2.edges ++ [(u, v)]⟩

/-- The parent expression of the loop:
`"Tú" if gen_idx == 1 else f"G{gen_idx-1}-{(j % downline_data[gen_idx-2][0])+1}"`;
`prev_cnt` is `downline_data[gen_idx-2][0]` (`none` exactly when `gen_idx == 1`). -/
def parent_of (gen_idx : ℕ) (prev_cnt : Option ℤ) (j : ℕ) : Except PyError String :=
  match prev_cnt with
  | none => .ok "Tú"
  | some pc =>
    match pymod j pc with
    | .error e => .error e
    | .ok m => .ok (node_label (gen_idx - 1) (m + 1))

/-- The inner loop `for j in range(cnt)`: compute `label` and `parent`
(the latter may raise), then `add_node(label)` and `add_edge(parent, label)`. -/
def add_children (gen_idx : ℕ) (prev_cnt : Option ℤ) : List ℕ → Network → Except PyError Network
  | [], net => .ok net
  | j :: js, net =>
    match parent_of gen_idx prev_cnt j with
    | .error e => .error e
    | .ok parent =>
      add_children gen_idx prev_cnt js
        (addEdge (addNode net (node_label gen_idx ((j : ℤ) + 1))) parent
          (node_label gen_idx ((j : ℤ) + 1)))

/-- The outer loop `for gen_idx, (cnt, _) in enumerate(downline_data, start=1)`,
threading the previous generation's count. -/
def build_network_aux : Network → ℕ → Option ℤ → List (ℤ × ℚ) → Except PyError Network
  | net, _, _, [] => .ok net
  | net, gen_idx, prev_cnt, (cnt, _) :: rest =>
    match add_children gen_idx prev_cnt (List.range cnt.toNat) net with
    | .error e => .error e
    | .ok net2 => build_network_aux net2 (gen_idx + 1) (some cnt) rest

/-- The graph-construction portion of `show_network_visualization`: a graph
holding the root node `"Tú"`, then the generation loop. -/
def build_network (downline_data : List (ℤ × ℚ)) : Except PyError Network :=
  build_network_aux ⟨["Tú"], []⟩ 1 none downline_data

/-! ### Specification-side description of the network

Definitions `spec_parent` and `spec_edges` transcribe the specification's description of
the Network Builder — root `"Tú"`, child labels `G{g}-{j+1}`, and round-robin
parent `G{g-1}-{(j mod affiliate_count[g-1]) + 1}` for `g > 1` — to be
compared with what `build_network` computes. -/

/-- The parent the specification assigns to position `j` of generation `g`
(`prev_cnt` is the previous generation's affiliate count, unused for `g = 1`). -/
def spec_parent (g : ℕ) (prev_cnt : ℤ) (j : ℕ) : String :=
  if g = 1 then "Tú" else node_label (g - 1) ((j : ℤ) % prev_cnt + 1)

/-- The specification's edge list: one `(parent, label)` pair per generation
member, in generation order. -/
def spec_edges : ℕ → ℤ → List (ℤ × ℚ) → List (String × String)
  | _, _, [] => []
  | g, prev, (cnt, _) :: rest =>
    ((List.range cnt.toNat).map (fun j => (spec_parent g prev j, node_label g ((j : ℤ) + 1))))
      ++ spec_edges (g + 1) cnt rest

/-- A downline tail contains, somewhere ahead, a generation with a positive
count whose preceding generation count (threaded as `prev`) is zero — the
situation in which the builder's `j % 0` raises `ZeroDivisionError`. -/
def BadFrom : Option ℤ → List (ℤ × ℚ) → Prop
  | _, [] => False
  | prev, (c, _) :: rest => (prev = some 0 ∧ 0 < c) ∨ BadFrom (some c) rest

/-! ### Decimal-representation infrastructure

The node labels of the network are strings built with `Nat.repr`.  To reason
about distinctness of labels we relate core's fuel-based `Nat.toDigitsCore`
to a structurally transparent digit function and prove injectivity. -/

/-- Base-10 character digits of a natural number, most significant first:
the value computed by core's fuel-based `Nat.toDigitsCore 10`. -/
def digits10 (n : ℕ) : List Char :=
  if n < 10 then [Nat.digitChar n]
  else digits10 (n / 10) ++ [Nat.digitChar (n % 10)]
decreasing_by exact Nat.div_lt_self (by omega) (by omega)

theorem digits10_lt {n : ℕ} (h : n < 10) : digits10 n = [Nat.digitChar n] := by
  rw [digits10, if_pos h]

theorem digits10_ge {n : ℕ} (h : ¬ n < 10) :
    digits10 n = digits10 (n / 10) ++ [Nat.digitChar (n % 10)] := by
  conv_lhs => rw [digits10]
  rw [if_neg h]

theorem digits10_length_pos (n : ℕ) : 0 < (digits10 n).length := by
  rcases Nat.lt_or_ge n 10 with h | h
  · rw [digits10_lt h]; simp
  · rw [digits10_ge (by omega)]; simp

theorem toDigitsCore_eq_digits10 :
    ∀ (f n : ℕ) (ds : List Char), n < f →
      Nat.toDigitsCore 10 f n ds = digits10 n ++ ds := by
  intro f
  induction f with
  | zero => intro n ds h; omega
  | succ f ih =>
    intro n ds h
    simp only [Nat.toDigitsCore]
    rcases Nat.eq_zero_or_pos (n / 10) with hz | hp
    · have hn10 : n < 10 := by omega
      rw [if_pos hz, digits10_lt hn10, Nat.mod_eq_of_lt hn10]
      simp
    · have hn10 : ¬ n < 10 := by omega
      have hlt : n / 10 < n := Nat.div_lt_self (by omega) (by omega)
      rw [if_neg (by omega), ih (n / 10) _ (by omega), digits10_ge hn10,
        List.append_assoc]
      simp

theorem repr_data_eq_digits10 (n : ℕ) : (Nat.repr n).data = digits10 n := by
  show (Nat.toDigits 10 n).asString.data = digits10 n
  rw [Nat.toDigits, toDigitsCore_eq_digits10 (n + 1) n [] (Nat.lt_succ_self n)]
  simp [List.asString]

theorem digitChar_ne_dash : ∀ n, n < 10 → Nat.digitChar n ≠ '-' := by decide

theorem digitChar_inj_lt : ∀ m, m < 10 → ∀ n, n < 10 →
    Nat.digitChar m = Nat.digitChar n → m = n := by decide

theorem dash_not_mem_digits10 (n : ℕ) : '-' ∉ digits10 n := by
  induction n using Nat.strong_induction_on with
  | _ n ih =>
    rcases Nat.lt_or_ge n 10 with hn | hn
    · rw [digits10_lt hn]
      simpa using (digitChar_ne_dash n hn).symm
    · rw [digits10_ge (by omega)]
      have h1 : '-' ∉ digits10 (n / 10) :=
        ih (n / 10) (Nat.div_lt_self (by omega) (by omega))
      have h2 : Nat.digitChar (n % 10) ≠ '-' :=
        digitChar_ne_dash (n % 10) (Nat.mod_lt n (by omega))
      simp only [List.mem_append, List.mem_singleton]
      rintro (h | h)
      · exact h1 h
      · exact h2 h.symm

theorem digits10_inj : ∀ m n, digits10 m = digits10 n → m = n := by
  intro m
  induction m using Nat.strong_induction_on with
  | _ m ih =>
    intro n h
    rcases Nat.lt_or_ge m 10 with hm | hm <;> rcases Nat.lt_or_ge n 10 with hn | hn
    · rw [digits10_lt hm, digits10_lt hn] at h
      exact digitChar_inj_lt m hm n hn (List.singleton_injective h)
    · rw [digits10_lt hm, digits10_ge (by omega)] at h
      have hlen := congrArg List.length h
      have hpos := digits10_length_pos (n / 10)
      simp only [List.length_singleton, List.length_append] at hlen
      omega
    · rw [digits10_ge (by omega), digits10_lt hn] at h
      have hlen := congrArg List.length h
      have hpos := digits10_length_pos (m / 10)
      simp only [List.length_singleton, List.length_append] at hlen
      omega
    · rw [digits10_ge (show ¬ m < 10 by omega), digits10_ge (show ¬ n < 10 by omega)] at h
      have h' := congrArg List.reverse h
      simp only [List.reverse_append, List.reverse_singleton, List.singleton_append,
        List.cons.injEq] at h'
      obtain ⟨hc, hrev⟩ := h'
      have hdiv : m / 10 = n / 10 :=
        ih (m / 10) (Nat.div_lt_self (by omega) (by omega)) (n / 10)
          (List.reverse_injective hrev)
      have hmod : m % 10 = n % 10 :=
        digitChar_inj_lt (m % 10) (Nat.mod_lt m (by omega)) (n % 10)
          (Nat.mod_lt n (by omega)) hc
      omega

theorem nat_repr_inj {m n : ℕ} (h : Nat.repr m = Nat.repr n) : m = n :=
  digits10_inj m n (by rw [← repr_data_eq_digits10, ← repr_data_eq_digits10, h])

theorem dash_not_mem_repr (n : ℕ) : '-' ∉ (Nat.repr n).data := by
  rw [repr_data_eq_digits10]; exact dash_not_mem_digits10 n

/-- The value of `Int.repr` at a non-negative integer is `Nat.repr` of its `toNat`. -/
theorem int_repr_nonneg (i : ℤ) (h : 0 ≤ i) : Int.repr i = Nat.repr i.toNat := by
  cases i with
  | ofNat k => rfl
  | negSucc k =>
    have := Int.negSucc_lt_zero k
    omega

/-- Splitting a character list at a separator absent from both prefixes. -/
theorem append_dash_inj :
    ∀ (xs xs' ys ys' : List Char), '-' ∉ xs → '-' ∉ xs' →
      xs ++ '-' :: ys = xs' ++ '-' :: ys' → xs = xs' ∧ ys = ys' := by
  intro xs
  induction xs with
  | nil =>
    intro xs' ys ys' _ h2 h
    cases xs' with
    | nil => simpa using h
    | cons c t =>
      simp only [List.nil_append, List.cons_append, List.cons.injEq] at h
      refine absurd ?_ h2
      rw [← h.1]
      exact List.mem_cons_self '-' t
  | cons c t ih =>
    intro xs' ys ys' h1 h2 h
    cases xs' with
    | nil =>
      simp only [List.nil_append, List.cons_append, List.cons.injEq] at h
      refine absurd ?_ h1
      rw [h.1]
      exact List.mem_cons_self '-' t
    | cons c' t' =>
      simp only [List.cons_append, List.cons.injEq] at h
      obtain ⟨hc, ht⟩ := h
      have := ih t' ys ys' (fun hm => h1 (List.mem_cons_of_mem c hm))
        (fun hm => h2 (List.mem_cons_of_mem c' hm)) ht
      exact ⟨by rw [hc, this.1], this.2⟩

/-- Injectivity of the label template on non-negative indices. -/
theorem node_label_inj {g g' : ℕ} {i i' : ℤ} (hi : 0 ≤ i) (hi' : 0 ≤ i')
    (h : node_label g i = node_label g' i') : g = g' ∧ i = i' := by
  have hd := congrArg String.data h
  rw [node_label, node_label, int_repr_nonneg i hi, int_repr_nonneg i' hi'] at hd
  simp only [String.data_append, List.append_assoc] at hd
  have hd' : (Nat.repr g).data ++ '-' :: (Nat.repr i.toNat).data =
      (Nat.repr g').data ++ '-' :: (Nat.repr i'.toNat).data := by
    have : ∀ (a b : List Char), ['G'] ++ (a ++ (['-'] ++ b)) = 'G' :: (a ++ '-' :: b) := by
      intro a b; simp
    rw [this, this] at hd
    exact List.cons_injective hd
  obtain ⟨hg, hi2⟩ := append_dash_inj _ _ _ _ (dash_not_mem_repr g) (dash_not_mem_repr g') hd'
  refine ⟨nat_repr_inj (String.ext hg), ?_⟩
  have := nat_repr_inj (String.ext hi2)
  omega

/-- No generated label collides with the root node `"Tú"`. -/
theorem node_label_ne_root (g : ℕ) (i : ℤ) : node_label g i ≠ "Tú" := by
  intro h
  have hd := congrArg String.data h
  rw [node_label] at hd
  simp only [String.data_append, List.append_assoc] at hd
  simp at hd

/-! ### Claim theorems: tier catalog and bonus calculators -/

/-- C3: the tier catalog contains exactly four tiers — Pre-Junior, Junior,
Senior, Master — with team-bonus rates 0.05, 0.07, 0.08, 0.10 and elite
depths 0, 0, 3, 6. -/
theorem claim_C3_catalog :
    MEMBERSHIP.map (fun p => (p.1, p.2.team_pct, p.2.elite_depth)) =
      [("Pre-Junior", (0.05 : ℚ), 0), ("Junior", 0.07, 0),
       ("Senior", 0.08, 3), ("Master", 0.10, 6)] := rfl

/-- C1: for all non-negative `bv_private`, `bv_public` and every tier in the
catalog, `calculate_team_bonus` returns `bv_base = min(bv_private, bv_public)`,
the tier's `team_pct`, and `bonus_amount = bv_base * team_pct`; in particular
Master with 3000/2500 yields `bv_base = 2500` and `bonus_amount = 250`. -/
theorem claim_C1_team_bonus (a b : ℚ) (ha : 0 ≤ a) (hb : 0 ≤ b)
    (name : String) (t : Tier) (ht : dictGet MEMBERSHIP name = .ok t) :
    calculate_team_bonus a b name = .ok ⟨min a b, t.team_pct, min a b * t.team_pct⟩ ∧
    calculate_team_bonus 3000 2500 "Master" = .ok ⟨2500, 0.10, 250⟩ := by
  refine ⟨?_, ?_⟩
  · simp [calculate_team_bonus, ht]
  · simp [calculate_team_bonus, dictGet, MEMBERSHIP, List.find?]
    norm_num

theorem claim_C1_team_bonus_witness :
    (0 : ℚ) ≤ 3000 ∧ (0 : ℚ) ≤ 2500 ∧
    dictGet MEMBERSHIP "Master" = .ok ⟨0.10, 6, "#F06292"⟩ ∧
    (calculate_team_bonus 3000 2500 "Master" =
        .ok ⟨min 3000 2500, (0.10 : ℚ), min 3000 2500 * 0.10⟩ ∧
      calculate_team_bonus 3000 2500 "Master" = .ok ⟨2500, 0.10, 250⟩) :=
  ⟨by norm_num, by norm_num, rfl,
    claim_C1_team_bonus 3000 2500 (by norm_num) (by norm_num) "Master"
      ⟨0.10, 6, "#F06292"⟩ rfl⟩

/-- C2: `calculate_elite_bonus` maps `count * bv * 0.04` over exactly the first
`min(len(downline), elite_depth)` generations, in order, and returns that list
together with its sum; Senior over [(5,200),(3,200),(3,200)] gives
[40, 24, 24] with total 88. -/
theorem claim_C2_elite_bonus (d : List (ℤ × ℚ)) (name : String) (t : Tier)
    (ht : dictGet MEMBERSHIP name = .ok t) :
    calculate_elite_bonus d name =
      .ok ⟨(d.take t.elite_depth).map (fun p => (p.1 : ℚ) * p.2 * 0.04),
           ((d.take t.elite_depth).map (fun p => (p.1 : ℚ) * p.2 * 0.04)).sum⟩ ∧
    (d.take t.elite_depth).length = min d.length t.elite_depth ∧
    calculate_elite_bonus [(5, 200), (3, 200), (3, 200)] "Senior" =
      .ok ⟨[40, 24, 24], 88⟩ := by
  refine ⟨?_, ?_, ?_⟩
  · simp [calculate_elite_bonus, ht]
  · rw [List.length_take, Nat.min_comm]
  · simp [calculate_elite_bonus, dictGet, MEMBERSHIP, List.find?]
    norm_num

theorem claim_C2_elite_bonus_witness :
    dictGet MEMBERSHIP "Senior" = .ok ⟨0.08, 3, "#FFB74D"⟩ ∧
    (calculate_elite_bonus [((5 : ℤ), (200 : ℚ)), (3, 200), (3, 200)] "Senior" =
        .ok ⟨([((5 : ℤ), (200 : ℚ)), (3, 200), (3, 200)].take 3).map
              (fun p => (p.1 : ℚ) * p.2 * 0.04),
             (([((5 : ℤ), (200 : ℚ)), (3, 200), (3, 200)].take 3).map
              (fun p => (p.1 : ℚ) * p.2 * 0.04)).sum⟩ ∧
      ([((5 : ℤ), (200 : ℚ)), (3, 200), (3, 200)].take 3).length =
        min [((5 : ℤ), (200 : ℚ)), (3, 200), (3, 200)].length 3 ∧
      calculate_elite_bonus [(5, 200), (3, 200), (3, 200)] "Senior" =
        .ok ⟨[40, 24, 24], 88⟩) :=
  ⟨rfl, claim_C2_elite_bonus [(5, 200), (3, 200), (3, 200)] "Senior"
    ⟨0.08, 3, "#FFB74D"⟩ rfl⟩

/-- C9: a tier with `elite_depth = 0` — as Pre-Junior and Junior are — yields
an empty per-generation list and total 0 for every downline. -/
theorem claim_C9_depth_zero (name : String) (t : Tier)
    (ht : dictGet MEMBERSHIP name = .ok t) (hdepth : t.elite_depth = 0)
    (d : List (ℤ × ℚ)) :
    calculate_elite_bonus d name = .ok ⟨[], 0⟩ ∧
    calculate_elite_bonus d "Pre-Junior" = .ok ⟨[], 0⟩ ∧
    calculate_elite_bonus d "Junior" = .ok ⟨[], 0⟩ := by
  refine ⟨?_, ?_, ?_⟩
  · simp [calculate_elite_bonus, ht, hdepth]
  · simp [calculate_elite_bonus, dictGet, MEMBERSHIP, List.find?]
  · simp [calculate_elite_bonus, dictGet, MEMBERSHIP, List.find?]

theorem claim_C9_depth_zero_witness :
    dictGet MEMBERSHIP "Pre-Junior" = .ok ⟨0.05, 0, "#90CAF9"⟩ ∧
    (calculate_elite_bonus [((7 : ℤ), (100 : ℚ))] "Pre-Junior" = .ok ⟨[], 0⟩ ∧
      calculate_elite_bonus [((7 : ℤ), (100 : ℚ))] "Pre-Junior" = .ok ⟨[], 0⟩ ∧
      calculate_elite_bonus [((7 : ℤ), (100 : ℚ))] "Junior" = .ok ⟨[], 0⟩) :=
  ⟨rfl, claim_C9_depth_zero "Pre-Junior" ⟨0.05, 0, "#90CAF9"⟩ rfl rfl [(7, 100)]⟩

/-- C10: the elite bonus depends on the tier only through `elite_depth`: any
two catalog tiers with equal depths give identical per-generation lists and
totals for every downline (so `team_pct` never influences the result, the
per-generation rate being the fixed 0.04); in particular Pre-Junior and
Junior always agree. -/
theorem claim_C10_depth_only (n1 n2 : String) (t1 t2 : Tier)
    (h1 : dictGet MEMBERSHIP n1 = .ok t1) (h2 : dictGet MEMBERSHIP n2 = .ok t2)
    (hdepth : t1.elite_depth = t2.elite_depth) (d : List (ℤ × ℚ)) :
    calculate_elite_bonus d n1 = calculate_elite_bonus d n2 ∧
    calculate_elite_bonus d "Pre-Junior" = calculate_elite_bonus d "Junior" := by
  refine ⟨?_, ?_⟩
  · simp [calculate_elite_bonus, h1, h2, hdepth]
  · simp [calculate_elite_bonus, dictGet, MEMBERSHIP, List.find?]

theorem claim_C10_depth_only_witness :
    dictGet MEMBERSHIP "Pre-Junior" = .ok ⟨0.05, 0, "#90CAF9"⟩ ∧
    dictGet MEMBERSHIP "Junior" = .ok ⟨0.07, 0, "#81C784"⟩ ∧
    (calculate_elite_bonus [((4 : ℤ), (50 : ℚ))] "Pre-Junior" =
        calculate_elite_bonus [((4 : ℤ), (50 : ℚ))] "Junior" ∧
      calculate_elite_bonus [((4 : ℤ), (50 : ℚ))] "Pre-Junior" =
        calculate_elite_bonus [((4 : ℤ), (50 : ℚ))] "Junior") :=
  ⟨rfl, rfl, claim_C10_depth_only "Pre-Junior" "Junior" ⟨0.05, 0, "#90CAF9"⟩
    ⟨0.07, 0, "#81C784"⟩ rfl rfl rfl [(4, 50)]⟩

/-! ### Claim theorems: downline generator, unknown tiers, negative inputs -/

/-- C8: `get_downline_counts` returns a list of length `gen_count` whose
element 0 carries `first_gen_default`, later elements `other_gen_default`,
all with the same `bv`; `gen_count = 0` gives `[]`; with the defaults 5 and 3,
`get_downline_counts 3 200` gives `[(5,200),(3,200),(3,200)]`. -/
theorem claim_C8_downline_generator (n : ℤ) (hn : 0 ≤ n) (bv : ℚ) (fg og : ℤ) :
    ((get_downline_counts n bv fg og).length : ℤ) = n ∧
    (∀ (i : ℕ) (h : i < (get_downline_counts n bv fg og).length),
      (get_downline_counts n bv fg og).get ⟨i, h⟩ = (if i = 0 then fg else og, bv)) ∧
    get_downline_counts 0 bv fg og = [] ∧
    get_downline_counts 3 200 5 3 = [(5, 200), (3, 200), (3, 200)] := by
  refine ⟨?_, ?_, ?_, ?_⟩
  · simp [get_downline_counts]
    omega
  · intro i h
    simp [get_downline_counts]
  · rfl
  · rfl

theorem claim_C8_downline_generator_witness :
    (0 : ℤ) ≤ 3 ∧
    (((get_downline_counts 3 200 5 3).length : ℤ) = 3 ∧
      (∀ (i : ℕ) (h : i < (get_downline_counts 3 200 5 3).length),
        (get_downline_counts 3 200 5 3).get ⟨i, h⟩ =
          (if i = 0 then (5 : ℤ) else 3, (200 : ℚ))) ∧
      get_downline_counts 0 200 5 3 = [] ∧
      get_downline_counts 3 200 5 3 = [(5, 200), (3, 200), (3, 200)]) :=
  ⟨by norm_num, claim_C8_downline_generator 3 (by norm_num) 200 5 3⟩

theorem find_none_of_unknown (name : String) (h1 : name ≠ "Pre-Junior")
    (h2 : name ≠ "Junior") (h3 : name ≠ "Senior") (h4 : name ≠ "Master") :
    MEMBERSHIP.find? (fun p => p.1 == name) = none := by
  refine List.find?_eq_none.mpr ?_
  intro x hx
  simp only [MEMBERSHIP, List.mem_cons, List.not_mem_nil, or_false] at hx
  rcases hx with h | h | h | h <;> subst h <;> simp only [beq_iff_eq] <;>
    first
      | exact fun hh => h1 hh.symm
      | exact fun hh => h2 hh.symm
      | exact fun hh => h3 hh.symm
      | exact fun hh => h4 hh.symm

/-- C7: a tier name outside the fixed catalog is never silently defaulted:
the dict lookup fails with `KeyError(name)` and both calculators propagate
that failure. -/
theorem claim_C7_unknown_tier (name : String)
    (h1 : name ≠ "Pre-Junior") (h2 : name ≠ "Junior")
    (h3 : name ≠ "Senior") (h4 : name ≠ "Master")
    (a b : ℚ) (d : List (ℤ × ℚ)) :
    dictGet MEMBERSHIP name = .error (.keyError name) ∧
    calculate_team_bonus a b name = .error (.keyError name) ∧
    calculate_elite_bonus d name = .error (.keyError name) := by
  have hfind := find_none_of_unknown name h1 h2 h3 h4
  refine ⟨?_, ?_, ?_⟩ <;>
    simp [dictGet, calculate_team_bonus, calculate_elite_bonus, hfind]

theorem claim_C7_unknown_tier_witness :
    ("Diamond" ≠ "Pre-Junior") ∧ ("Diamond" ≠ "Junior") ∧
    ("Diamond" ≠ "Senior") ∧ ("Diamond" ≠ "Master") ∧
    (dictGet MEMBERSHIP "Diamond" = .error (.keyError "Diamond") ∧
      calculate_team_bonus 100 100 "Diamond" = .error (.keyError "Diamond") ∧
      calculate_elite_bonus [((5 : ℤ), (200 : ℚ))] "Diamond" =
        .error (.keyError "Diamond")) :=
  ⟨by decide, by decide, by decide, by decide,
    claim_C7_unknown_tier "Diamond" (by decide) (by decide) (by decide) (by decide)
      100 100 [(5, 200)]⟩

/-- C6 as stated is false of the code: negative inputs are not rejected (no
`InvalidParameterError` exists anywhere); each operation returns an
ordinarily-computed result. -/
theorem claim_C6_counterexample :
    calculate_team_bonus (-1) 0 "Master" = .ok ⟨-1, 0.10, -0.1⟩ ∧
    calculate_elite_bonus [(-1, 200)] "Senior" = .ok ⟨[-8], -8⟩ ∧
    get_downline_counts (-3) 200 5 3 = [] ∧
    get_downline_counts 2 (-200) 5 3 = [(5, -200), (3, -200)] := by
  refine ⟨?_, ?_, ?_, ?_⟩
  · simp [calculate_team_bonus, dictGet, MEMBERSHIP, List.find?, min_def]
    norm_num
  · simp [calculate_elite_bonus, dictGet, MEMBERSHIP, List.find?]
    norm_num
  · rfl
  · rfl

/-- C6 amended: the core performs no input validation: with negative BV,
negative affiliate counts, or a negative generation count, each operation
still returns its normally-computed value (non-negativity is enforced only by
the UI widgets, outside the core). -/
theorem claim_C6_amended (a b : ℚ) (ha : a < 0) (name : String) (t : Tier)
    (ht : dictGet MEMBERSHIP name = .ok t)
    (c : ℤ) (hc : c < 0) (bv : ℚ) (hbv : bv < 0) (n : ℤ) (hn : n < 0) :
    calculate_team_bonus a b name = .ok ⟨min a b, t.team_pct, min a b * t.team_pct⟩ ∧
    calculate_elite_bonus [(c, bv)] name =
      .ok ⟨([((c : ℤ), bv)].take t.elite_depth).map (fun p => (p.1 : ℚ) * p.2 * 0.04),
           (([((c : ℤ), bv)].take t.elite_depth).map
             (fun p => (p.1 : ℚ) * p.2 * 0.04)).sum⟩ ∧
    get_downline_counts n bv 5 3 = [] := by
  refine ⟨?_, ?_, ?_⟩
  · simp [calculate_team_bonus, ht]
  · simp [calculate_elite_bonus, ht]
  · simp [get_downline_counts, Int.toNat_of_nonpos (le_of_lt hn)]

theorem claim_C6_amended_witness :
    ((-1 : ℚ) < 0) ∧ dictGet MEMBERSHIP "Master" = .ok ⟨0.10, 6, "#F06292"⟩ ∧
    ((-1 : ℤ) < 0) ∧ ((-200 : ℚ) < 0) ∧ ((-3 : ℤ) < 0) ∧
    (calculate_team_bonus (-1) 0 "Master" =
        .ok ⟨min (-1) 0, (0.10 : ℚ), min (-1) 0 * 0.10⟩ ∧
      calculate_elite_bonus [((-1 : ℤ), (-200 : ℚ))] "Master" =
        .ok ⟨([((-1 : ℤ), (-200 : ℚ))].take 6).map (fun p => (p.1 : ℚ) * p.2 * 0.04),
             (([((-1 : ℤ), (-200 : ℚ))].take 6).map
               (fun p => (p.1 : ℚ) * p.2 * 0.04)).sum⟩ ∧
      get_downline_counts (-3) (-200) 5 3 = []) :=
  ⟨by norm_num, rfl, by norm_num, by norm_num, by norm_num,
    claim_C6_amended (-1) 0 (by norm_num) "Master" ⟨0.10, 6, "#F06292"⟩ rfl
      (-1) (by norm_num) (-200) (by norm_num) (-3) (by norm_num)⟩

/-! ### Claim theorems: network builder error behaviour -/

/-- C5 as stated is false of the code: with generation 1 empty and
generation 2 non-empty the builder crashes on the modulo-by-zero arithmetic
(`ZeroDivisionError`); no `InvalidTopologyError` exists in the code. -/
theorem claim_C5_counterexample :
    build_network [(0, 200), (1, 200)] = .error .zeroDivisionError := by decide

theorem add_children_total : ∀ (gen_idx : ℕ) (prevO : Option ℤ),
    (∀ pc, prevO = some pc → pc ≠ 0) →
    ∀ (js : List ℕ) (net : Network),
      ∃ net2, add_children gen_idx prevO js net = .ok net2 := by
  intro gen_idx prevO hpc js
  induction js with
  | nil => intro net; exact ⟨net, rfl⟩
  | cons j t ih =>
    intro net
    cases prevO with
    | none =>
      simp only [add_children, parent_of]
      exact ih _
    | some pc =>
      have hne := hpc pc rfl
      simp only [add_children, parent_of, pymod, if_neg hne]
      exact ih _

theorem build_aux_error : ∀ (rest : List (ℤ × ℚ)) (net : Network) (gen_idx : ℕ)
    (prevO : Option ℤ), BadFrom prevO rest →
    build_network_aux net gen_idx prevO rest = .error .zeroDivisionError := by
  intro rest
  induction rest with
  | nil =>
    intro net gen_idx prevO h
    exact absurd h (by simp [BadFrom])
  | cons p rest ih =>
    obtain ⟨c, bv⟩ := p
    intro net gen_idx prevO h
    by_cases hz : prevO = some 0 ∧ 0 < c
    · obtain ⟨hp0, hcpos⟩ := hz
      subst hp0
      obtain ⟨m, hm⟩ : ∃ m, c.toNat = m + 1 := ⟨c.toNat - 1, by omega⟩
      simp [build_network_aux, hm, List.range_succ_eq_map, add_children,
        parent_of, pymod]
    · have hbad : BadFrom (some c) rest := by
        rcases h with hcase | hbad
        · exact absurd hcase hz
        · exact hbad
      rcases Nat.eq_zero_or_pos c.toNat with hc0 | hcpos
      · simp only [build_network_aux, hc0, List.range_zero, add_children]
        exact ih net (gen_idx + 1) (some c) hbad
      · have hob : ∀ pc, prevO = some pc → pc ≠ 0 := by
          intro pc hpc h0
          exact hz ⟨by rw [hpc, h0], by omega⟩
        obtain ⟨net2, hnet2⟩ :=
          add_children_total gen_idx prevO hob (List.range c.toNat) net
        simp only [build_network_aux, hnet2]
        exact ih net2 (gen_idx + 1) (some c) hbad

theorem bad_from_of_indices : ∀ (d : List (ℤ × ℚ)) (prevO : Option ℤ) (i : ℕ)
    (hi : i < d.length) (hi1 : i + 1 < d.length),
    (d.get ⟨i, hi⟩).1 = 0 → 0 < (d.get ⟨i + 1, hi1⟩).1 → BadFrom prevO d := by
  intro d
  induction d with
  | nil =>
    intro prevO i hi hi1 h0 h1
    exact absurd hi (Nat.not_lt_zero i)
  | cons p rest ih =>
    intro prevO i hi hi1 h0 h1
    obtain ⟨c, bv⟩ := p
    cases i with
    | zero =>
      cases rest with
      | nil =>
        simp only [List.length_cons, List.length_nil] at hi1
        omega
      | cons q rest2 =>
        obtain ⟨c1, bv1⟩ := q
        exact Or.inr (Or.inl ⟨congrArg some (show c = 0 from h0), show 0 < c1 from h1⟩)
    | succ i' =>
      simp only [List.length_cons] at hi hi1
      exact Or.inr (ih (some c) i' (by omega) (by omega) h0 h1)

/-- C5 amended: whenever some generation `g > 1` has a positive count while
generation `g-1` has count 0, `build_network` does fail fast — before
producing any result — but with the propagated `ZeroDivisionError` of the
`j % 0` computation, not with an `InvalidTopologyError` (which the code does
not define). -/
theorem claim_C5_amended (d : List (ℤ × ℚ)) (i : ℕ) (hi : i < d.length)
    (hi1 : i + 1 < d.length) (h0 : (d.get ⟨i, hi⟩).1 = 0)
    (h1 : 0 < (d.get ⟨i + 1, hi1⟩).1) :
    build_network d = .error .zeroDivisionError :=
  build_aux_error d ⟨["Tú"], []⟩ 1 none (bad_from_of_indices d none i hi hi1 h0 h1)

theorem claim_C5_amended_witness :
    (0 : ℕ) < ([((0 : ℤ), (200 : ℚ)), (1, 200)] : List (ℤ × ℚ)).length ∧
    0 + 1 < ([((0 : ℤ), (200 : ℚ)), (1, 200)] : List (ℤ × ℚ)).length ∧
    build_network [((0 : ℤ), (200 : ℚ)), (1, 200)] = .error .zeroDivisionError :=
  ⟨by decide, by decide,
    claim_C5_amended [(0, 200), (1, 200)] 0 (by decide) (by decide) rfl (by decide)⟩

/-! ### Claim C4: exact characterization of the built network -/

theorem add_children_eq :
    ∀ (js : List ℕ) (net : Network) (gen_idx : ℕ) (prevO : Option ℤ) (prevZ : ℤ),
      (∀ j ∈ js, parent_of gen_idx prevO j = .ok (spec_parent gen_idx prevZ j)) →
      (∀ j ∈ js, spec_parent gen_idx prevZ j ∈ net.nodes) →
      (∀ j ∈ js, node_label gen_idx ((j : ℤ) + 1) ∉ net.nodes) →
      (∀ j ∈ js, ∀ e ∈ net.edges, e.2 ≠ node_label gen_idx ((j : ℤ) + 1)) →
      js.Nodup →
      add_children gen_idx prevO js net =
        .ok ⟨net.nodes ++ js.map (fun (j : ℕ) => node_label gen_idx ((j : ℤ) + 1)),
             net.edges ++ js.map (fun (j : ℕ) =>
               (spec_parent gen_idx prevZ j, node_label gen_idx ((j : ℤ) + 1)))⟩ := by
  intro js
  induction js with
  | nil =>
    intro net gen_idx prevO prevZ _ _ _ _ _
    simp [add_children]
  | cons j js ih =>
    intro net gen_idx prevO prevZ hpar hmem hfresh hefresh hnodup
    have hjc : j ∈ j :: js := List.mem_cons_self j js
    have hj := hpar j hjc
    simp only [add_children, hj]
    set L := node_label gen_idx ((j : ℤ) + 1) with hLdef
    set P := spec_parent gen_idx prevZ j with hPdef
    have h1 : addNode net L = ⟨net.nodes ++ [L], net.edges⟩ := by
      rw [addNode, if_neg (hfresh j hjc)]
    have hpmem : P ∈ net.nodes ++ [L] := List.mem_append_left _ (hmem j hjc)
    have hLmem : L ∈ net.nodes ++ [L] := List.mem_append_right _ (List.mem_singleton.mpr rfl)
    have hnotin : (P, L) ∉ net.edges := fun hmem2 => hefresh j hjc _ hmem2 rfl
    have h2 : addEdge ⟨net.nodes ++ [L], net.edges⟩ P L =
        ⟨net.nodes ++ [L], net.edges ++ [(P, L)]⟩ := by
      simp only [addEdge, addNode, if_pos hpmem, if_pos hLmem, if_neg hnotin]
    have hne : ∀ j' ∈ js, node_label gen_idx ((j' : ℤ) + 1) ≠ L := by
      intro j' hj' heq
      have hinj := node_label_inj (by omega) (by omega) heq
      have hj'j : j' = j := by omega
      subst hj'j
      exact (List.nodup_cons.mp hnodup).1 hj'
    have hpar' : ∀ j' ∈ js, parent_of gen_idx prevO j' = .ok (spec_parent gen_idx prevZ j') :=
      fun j' hj' => hpar j' (List.mem_cons_of_mem j hj')
    have hmem' : ∀ j' ∈ js, spec_parent gen_idx prevZ j' ∈ net.nodes ++ [L] :=
      fun j' hj' => List.mem_append_left _ (hmem j' (List.mem_cons_of_mem j hj'))
    have hfresh' : ∀ j' ∈ js, node_label gen_idx ((j' : ℤ) + 1) ∉ net.nodes ++ [L] := by
      intro j' hj'
      simp only [List.mem_append, List.mem_singleton]
      rintro (hin | hin)
      · exact hfresh j' (List.mem_cons_of_mem j hj') hin
      · exact hne j' hj' hin
    have hefresh' : ∀ j' ∈ js, ∀ e ∈ net.edges ++ [(P, L)],
        e.2 ≠ node_label gen_idx ((j' : ℤ) + 1) := by
      intro j' hj' e hemem
      rcases List.mem_append.mp hemem with he | he
      · exact hefresh j' (List.mem_cons_of_mem j hj') e he
      · rw [List.mem_singleton.mp he]
        exact fun heq => hne j' hj' heq.symm
    rw [h1, h2, ih ⟨net.nodes ++ [L], net.edges ++ [(P, L)]⟩ gen_idx prevO prevZ
      hpar' hmem' hfresh' hefresh' (List.nodup_cons.mp hnodup).2]
    simp [List.append_assoc]

theorem build_aux_eq :
    ∀ (rest : List (ℤ × ℚ)) (net : Network) (gen_idx : ℕ) (prevO : Option ℤ) (prevZ : ℤ),
      (∀ p ∈ rest, 0 < p.1) →
      ((prevO = none ∧ gen_idx = 1) ∨
        (∃ pc, prevO = some pc ∧ prevZ = pc ∧ 0 < pc ∧ 2 ≤ gen_idx ∧
          ∀ i : ℤ, 1 ≤ i → i ≤ pc → node_label (gen_idx - 1) i ∈ net.nodes)) →
      (∀ (g : ℕ) (i : ℤ), gen_idx ≤ g → 0 ≤ i → node_label g i ∉ net.nodes) →
      (∀ e ∈ net.edges, ∀ (g : ℕ) (i : ℤ), gen_idx ≤ g → 0 ≤ i →
        e.2 ≠ node_label g i) →
      "Tú" ∈ net.nodes →
      build_network_aux net gen_idx prevO rest =
        .ok ⟨net.nodes ++ (spec_edges gen_idx prevZ rest).map Prod.snd,
             net.edges ++ spec_edges gen_idx prevZ rest⟩ := by
  intro rest
  induction rest with
  | nil =>
    intro net gen_idx prevO prevZ _ _ _ _ _
    simp [build_network_aux, spec_edges]
  | cons p rest ih =>
    obtain ⟨cnt, bv⟩ := p
    intro net gen_idx prevO prevZ hpos hprev hfN hfE hroot
    have hc : 0 < cnt := hpos (cnt, bv) (List.mem_cons_self _ _)
    have hpar : ∀ j ∈ List.range cnt.toNat,
        parent_of gen_idx prevO j = .ok (spec_parent gen_idx prevZ j) := by
      intro j hj
      rcases hprev with ⟨hO, hg⟩ | ⟨pc, hO, hZ, hpc, hg2, hmem⟩
      · subst hO; subst hg
        simp [parent_of, spec_parent]
      · subst hO; subst hZ
        have hne : prevZ ≠ 0 := by omega
        simp only [parent_of, pymod, if_neg hne]
        rw [Int.fmod_eq_emod _ (le_of_lt hpc), spec_parent,
          if_neg (show ¬ gen_idx = 1 by omega)]
    have hmemP : ∀ j ∈ List.range cnt.toNat,
        spec_parent gen_idx prevZ j ∈ net.nodes := by
      intro j hj
      rcases hprev with ⟨hO, hg⟩ | ⟨pc, hO, hZ, hpc, hg2, hmem⟩
      · subst hg
        simpa [spec_parent] using hroot
      · subst hZ
        have h0 : (0 : ℤ) ≤ (j : ℤ) % prevZ := Int.emod_nonneg _ (by omega)
        have hlt : (j : ℤ) % prevZ < prevZ := Int.emod_lt_of_pos _ hpc
        rw [spec_parent, if_neg (show ¬ gen_idx = 1 by omega)]
        exact hmem _ (by omega) (by omega)
    have hfreshC : ∀ j ∈ List.range cnt.toNat,
        node_label gen_idx ((j : ℤ) + 1) ∉ net.nodes :=
      fun j _ => hfN gen_idx _ le_rfl (by omega)
    have hefreshC : ∀ j ∈ List.range cnt.toNat, ∀ e ∈ net.edges,
        e.2 ≠ node_label gen_idx ((j : ℤ) + 1) :=
      fun j _ e he => hfE e he gen_idx _ le_rfl (by omega)
    have hAC := add_children_eq (List.range cnt.toNat) net gen_idx prevO prevZ
      hpar hmemP hfreshC hefreshC (List.nodup_range cnt.toNat)
    simp only [build_network_aux, hAC]
    have hprevNew : (some cnt = none ∧ gen_idx + 1 = 1) ∨
        (∃ pc, some cnt = some pc ∧ cnt = pc ∧ 0 < pc ∧ 2 ≤ gen_idx + 1 ∧
          ∀ i : ℤ, 1 ≤ i → i ≤ pc →
            node_label (gen_idx + 1 - 1) i ∈
              (net.nodes ++ (List.range cnt.toNat).map
                (fun (j : ℕ) => node_label gen_idx ((j : ℤ) + 1)))) := by
      refine Or.inr ⟨cnt, rfl, rfl, hc, ?_, ?_⟩
      · rcases hprev with ⟨_, hg⟩ | ⟨pc, _, _, _, hg2, _⟩ <;> omega
      · intro i h1 h2
        rw [Nat.add_sub_cancel]
        refine List.mem_append.mpr (Or.inr ?_)
        refine List.mem_map.mpr ⟨(i - 1).toNat, List.mem_range.mpr (by omega), ?_⟩
        have hcast : (((i - 1).toNat : ℤ)) + 1 = i := by omega
        rw [hcast]
    have hfN' : ∀ (g : ℕ) (i : ℤ), gen_idx + 1 ≤ g → 0 ≤ i →
        node_label g i ∉
          (net.nodes ++ (List.range cnt.toNat).map
            (fun (j : ℕ) => node_label gen_idx ((j : ℤ) + 1))) := by
      intro g i hg hi
      simp only [List.mem_append, List.mem_map, List.mem_range]
      rintro (hin | ⟨j, hj, heq⟩)
      · exact hfN g i (by omega) hi hin
      · have := node_label_inj (by omega) hi heq
        omega
    have hfE' : ∀ e ∈ (net.edges ++ (List.range cnt.toNat).map
          (fun (j : ℕ) => (spec_parent gen_idx prevZ j, node_label gen_idx ((j : ℤ) + 1)))),
        ∀ (g : ℕ) (i : ℤ), gen_idx + 1 ≤ g → 0 ≤ i → e.2 ≠ node_label g i := by
      intro e he g i hg hi
      rcases List.mem_append.mp he with he | he
      · exact hfE e he g i (by omega) hi
      · obtain ⟨j, hj, rfl⟩ := List.mem_map.mp he
        intro heq
        have := node_label_inj (by omega) hi heq
        omega
    have hroot' : "Tú" ∈
        (net.nodes ++ (List.range cnt.toNat).map
          (fun (j : ℕ) => node_label gen_idx ((j : ℤ) + 1))) :=
      List.mem_append_left _ hroot
    rw [ih ⟨net.nodes ++ (List.range cnt.toNat).map
          (fun (j : ℕ) => node_label gen_idx ((j : ℤ) + 1)),
        net.edges ++ (List.range cnt.toNat).map
          (fun (j : ℕ) => (spec_parent gen_idx prevZ j, node_label gen_idx ((j : ℤ) + 1)))⟩
      (gen_idx + 1) (some cnt) cnt
      (fun q hq => hpos q (List.mem_cons_of_mem _ hq)) hprevNew hfN' hfE' hroot']
    simp [spec_edges, List.map_append, List.map_map, List.append_assoc, Function.comp]

theorem build_network_eq (d : List (ℤ × ℚ)) (hpos : ∀ p ∈ d, 0 < p.1) :
    build_network d =
      .ok ⟨"Tú" :: (spec_edges 1 0 d).map Prod.snd, spec_edges 1 0 d⟩ := by
  have h := build_aux_eq d ⟨["Tú"], []⟩ 1 none 0 hpos (Or.inl ⟨rfl, rfl⟩)
    (fun g i _ _ hmem => node_label_ne_root g i (List.mem_singleton.mp hmem))
    (fun e he => absurd he (List.not_mem_nil e))
    (List.mem_singleton.mpr rfl)
  simpa [build_network] using h

theorem spec_edges_length : ∀ (d : List (ℤ × ℚ)) (g : ℕ) (p : ℤ),
    (∀ q ∈ d, 0 ≤ q.1) →
    ((spec_edges g p d).length : ℤ) = (d.map (fun q => q.1)).sum := by
  intro d
  induction d with
  | nil =>
    intro g p _
    simp [spec_edges]
  | cons q rest ih =>
    obtain ⟨cnt, bv⟩ := q
    intro g p hpos
    have h1 : (cnt.toNat : ℤ) = cnt :=
      Int.toNat_of_nonneg (hpos (cnt, bv) (List.mem_cons_self _ _))
    simp only [spec_edges, List.length_append, List.length_map, List.length_range,
      List.map_cons, List.sum_cons]
    push_cast
    rw [ih (g + 1) cnt (fun q hq => hpos q (List.mem_cons_of_mem _ hq))]
    omega

theorem spec_edges_snd_shape : ∀ (d : List (ℤ × ℚ)) (g : ℕ) (p : ℤ) (x : String),
    x ∈ (spec_edges g p d).map Prod.snd →
    ∃ (g' : ℕ) (j : ℕ), g ≤ g' ∧ x = node_label g' ((j : ℤ) + 1) := by
  intro d
  induction d with
  | nil =>
    intro g p x hx
    simp [spec_edges] at hx
  | cons q rest ih =>
    obtain ⟨cnt, bv⟩ := q
    intro g p x hx
    simp only [spec_edges, List.map_append, List.mem_append, List.map_map] at hx
    rcases hx with hx | hx
    · simp only [List.mem_map, List.mem_range, Function.comp] at hx
      obtain ⟨j, _, rfl⟩ := hx
      exact ⟨g, j, le_rfl, rfl⟩
    · obtain ⟨g', j, hg', rfl⟩ := ih (g + 1) cnt x hx
      exact ⟨g', j, by omega, rfl⟩

theorem spec_edges_snd_nodup : ∀ (d : List (ℤ × ℚ)) (g : ℕ) (p : ℤ),
    ((spec_edges g p d).map Prod.snd).Nodup := by
  intro d
  induction d with
  | nil =>
    intro g p
    simp [spec_edges]
  | cons q rest ih =>
    obtain ⟨cnt, bv⟩ := q
    intro g p
    simp only [spec_edges, List.map_append]
    refine List.Nodup.append ?_ (ih (g + 1) cnt) ?_
    · rw [List.map_map]
      refine List.Nodup.map ?_ (List.nodup_range cnt.toNat)
      intro a b hab
      simp only [Function.comp] at hab
      have := node_label_inj (by omega) (by omega) hab
      omega
    · intro x hx1 hx2
      rw [List.map_map] at hx1
      obtain ⟨j, _, rfl⟩ := List.mem_map.mp hx1
      obtain ⟨g', j', hg', heq⟩ := spec_edges_snd_shape rest (g + 1) cnt _ hx2
      simp only [Function.comp] at heq
      have := node_label_inj (by omega) (by omega) heq
      omega

theorem filter_snd_length : ∀ (l : List (String × String)) (v : String),
    (l.filter (fun e => e.2 == v)).length = (l.map Prod.snd).count v := by
  intro l v
  induction l with
  | nil => rfl
  | cons e t ih =>
    simp only [List.filter_cons, List.map_cons, List.count_cons]
    cases h : (e.2 == v) with
    | true => simp [h, ih]
    | false => simp [h, ih]

/-- C4: for a downline whose counts are all positive, the built network is
exactly the root `"Tú"` plus one node `G{g}-{j+1}` per generation member,
each with the single parent prescribed by the round-robin rule (the root for
`g = 1`, else `G{g-1}-{(j mod count[g-1])+1}`); hence there are exactly
`sum(count)` non-root nodes, equally many edges, and every non-root node has
in-degree exactly 1.  Concretely, `[(2,_),(2,_)]` gives nodes
Tú, G1-1, G1-2, G2-1, G2-2 and edges Tú→G1-1, Tú→G1-2, G1-1→G2-1, G1-2→G2-2. -/
theorem claim_C4_network (d : List (ℤ × ℚ)) (hpos : ∀ p ∈ d, 0 < p.1) :
    ∃ net, build_network d = .ok net ∧
      net.nodes = "Tú" :: (spec_edges 1 0 d).map Prod.snd ∧
      net.edges = spec_edges 1 0 d ∧
      net.nodes.Nodup ∧
      (net.nodes.length : ℤ) = 1 + (d.map (fun p => p.1)).sum ∧
      (net.edges.length : ℤ) = (d.map (fun p => p.1)).sum ∧
      (∀ v ∈ net.nodes, v ≠ "Tú" →
        (net.edges.filter (fun e => e.2 == v)).length = 1) ∧
      build_network [(2, 200), (2, 200)] =
        .ok ⟨["Tú", "G1-1", "G1-2", "G2-1", "G2-2"],
             [("Tú", "G1-1"), ("Tú", "G1-2"), ("G1-1", "G2-1"), ("G1-2", "G2-2")]⟩ := by
  have hlen := spec_edges_length d 1 0 (fun q hq => le_of_lt (hpos q hq))
  refine ⟨_, build_network_eq d hpos, rfl, rfl, ?_, ?_, ?_, ?_, by decide⟩
  · refine List.nodup_cons.mpr ⟨?_, spec_edges_snd_nodup d 1 0⟩
    intro hmem
    obtain ⟨g', j, _, heq⟩ := spec_edges_snd_shape d 1 0 _ hmem
    exact node_label_ne_root g' _ heq.symm
  · simp only [List.length_cons, List.length_map]
    simp only [List.length_map] at hlen
    push_cast
    omega
  · simpa using hlen
  · intro v hv hvroot
    have hvm : v ∈ (spec_edges 1 0 d).map Prod.snd := by
      rcases List.mem_cons.mp hv with h | h
      · exact absurd h hvroot
      · exact h
    rw [filter_snd_length]
    exact List.count_eq_one_of_mem (spec_edges_snd_nodup d 1 0) hvm

theorem claim_C4_network_witness :
    (∀ p ∈ ([((2 : ℤ), (200 : ℚ)), (2, 200)] : List (ℤ × ℚ)), 0 < p.1) ∧
    (∃ net, build_network [((2 : ℤ), (200 : ℚ)), (2, 200)] = .ok net ∧
      net.nodes = "Tú" ::
        (spec_edges 1 0 [((2 : ℤ), (200 : ℚ)), (2, 200)]).map Prod.snd ∧
      net.edges = spec_edges 1 0 [((2 : ℤ), (200 : ℚ)), (2, 200)] ∧
      net.nodes.Nodup ∧
      (net.nodes.length : ℤ) =
        1 + (([((2 : ℤ), (200 : ℚ)), (2, 200)] : List (ℤ × ℚ)).map (fun p => p.1)).sum ∧
      (net.edges.length : ℤ) =
        (([((2 : ℤ), (200 : ℚ)), (2, 200)] : List (ℤ × ℚ)).map (fun p => p.1)).sum ∧
      (∀ v ∈ net.nodes, v ≠ "Tú" →
        (net.edges.filter (fun e => e.2 == v)).length = 1) ∧
      build_network [(2, 200), (2, 200)] =
        .ok ⟨["Tú", "G1-1", "G1-2", "G2-1", "G2-2"],
             [("Tú", "G1-1"), ("Tú", "G1-2"), ("G1-1", "G2-1"), ("G1-2", "G2-2")]⟩) :=
  ⟨by decide, claim_C4_network [(2, 200), (2, 200)] (by decide)⟩

end HGW
